import Mathlib

/-!
Verification development for the `game_rs` game-launching utility.

The definitions below are a shallow embedding of the Rust sources:
`src/tag.rs`, `src/game_builder.rs`, `src/stats.rs`, `src/main.rs`.
Rust machine integers are modelled as `Nat`/`Int` with explicit bounds where
overflow matters; panicking operations are modelled with `Option`; `Result`
is modelled with `Except`.  Maps (`toml::Table`, `HashMap`) are modelled as
association lists whose list order stands for the map's iteration order.
-/

namespace GameRs

/-! ## Character and string utilities

Structural (kernel-computable) versions of the string operations used by the
Rust code: splitting on a separator character (`str::split`), rendering a
number in decimal (`format!` with `{}`), parsing decimal digits
(`str::parse`), and shell-style word splitting (`shell_words::split`).
-/

/-- Split a character list at every occurrence of `c`. Mirrors Rust
`str::split(c)`: the result is always non-empty, and an empty input yields
one empty segment. -/
def splitOnChar (c : Char) : List Char → List (List Char)
  | [] => [[]]
  | x :: xs =>
    match splitOnChar c xs with
    | [] => if x = c then [[], []] else [[x]]
    | h :: t => if x = c then [] :: h :: t else (x :: h) :: t

/-- The decimal digit character for `d < 10` (as produced by Rust's decimal
`Display` formatting); an arbitrary placeholder otherwise (never used). -/
def digitChar (d : Nat) : Char :=
  match d with
  | 0 => '0' | 1 => '1' | 2 => '2' | 3 => '3' | 4 => '4'
  | 5 => '5' | 6 => '6' | 7 => '7' | 8 => '8' | 9 => '9'
  | _ => '*'

/-- The numeric value of a decimal digit character, if it is one. -/
def charToDigit (c : Char) : Option Nat :=
  if 48 ≤ c.toNat ∧ c.toNat ≤ 57 then some (c.toNat - 48) else none

/-- Fuel-driven decimal rendering (most significant digit first). -/
def natToCharsAux : Nat → Nat → List Char
  | 0, _ => []
  | fuel + 1, n =>
    if n < 10 then [digitChar n]
    else natToCharsAux fuel (n / 10) ++ [digitChar (n % 10)]

/-- Decimal rendering of a natural number, as Rust `format!` with `{}`. -/
def natToChars (n : Nat) : List Char := natToCharsAux (n + 1) n

/-- Decimal rendering of a natural number as a string. -/
def natToString (n : Nat) : String := String.mk (natToChars n)

/-- Decimal rendering of an integer, as Rust `i64::to_string`. -/
def intToString (i : Int) : String :=
  if i < 0 then String.mk ('-' :: natToChars i.natAbs) else natToString i.natAbs

/-- One step of decimal parsing: accumulate a digit onto the value read so
far, failing on a non-digit character. -/
def parseStep (acc : Option Nat) (c : Char) : Option Nat :=
  match acc, charToDigit c with
  | some a, some d => some (a * 10 + d)
  | _, _ => none

/-- Parse a non-empty all-digit character list as a decimal natural number.
Mirrors Rust `str::parse` for unsigned integer types (range checks are done
separately by the callers that need them). -/
def parseNatChars (cs : List Char) : Option Nat :=
  if cs.isEmpty then none else cs.foldl parseStep (some 0)

/-- Zero-pad a decimal rendering to two characters, as the `time` crate's
`[month]`, `[day]`, `[hour]`, `[minute]`, `[second]` format items. -/
def pad2 (n : Nat) : List Char :=
  if n < 10 then '0' :: natToChars n else natToChars n

/-- Zero-pad a decimal rendering to four characters, as the `time` crate's
`[year]` format item. -/
def pad4 (n : Nat) : List Char :=
  List.replicate (4 - (natToChars n).length) '0' ++ natToChars n

/-- Core loop of shell-style word splitting; `q` is the currently open quote
character (if any) and `cur` the word being accumulated, in reverse.
Models the success path of `shell_words::split`: whitespace separates
words, single or double quotes group. On the ERROR path of the Rust
function — an unclosed quote, which makes `shell_words::split` return
`Err` and the `.expect` at the `parse_cmd` / `parse_wine_exe` call sites
in `main.rs` panic — this total model instead flushes the partial word;
backslash escapes are likewise not modelled. The predicate `shellWordsOk`
below characterizes the inputs on which this model is faithful, and every
theorem whose truth would be affected by the panic takes it as a
hypothesis. -/
def shellSplitGo : List Char → Option Char → Option (List Char) → List String
  | [], _, none => []
  | [], _, some cur => [String.mk cur.reverse]
  | c :: cs, some q, cur =>
    if c = q then shellSplitGo cs none (some (cur.getD []))
    else shellSplitGo cs (some q) (some (c :: cur.getD []))
  | c :: cs, none, cur =>
    if c = ' ' then
      match cur with
      | none => shellSplitGo cs none none
      | some w => String.mk w.reverse :: shellSplitGo cs none none
    else if c = '\'' ∨ c = '"' then shellSplitGo cs (some c) (some (cur.getD []))
    else shellSplitGo cs none (some (c :: cur.getD []))

/-- Shell-style word splitting of a string (the success path of
`shell_words::split`; see `shellSplitGo` for the divergence on its error
path and `shellWordsOk` for the domain on which it is faithful). -/
def shellSplit (s : String) : List String := shellSplitGo s.data none none

/-- Does every quote opened in the input get closed?  Runs the same quote
state machine as `shellSplitGo` and checks that the input ends outside a
quote. -/
def shellQuoteClosed : List Char → Option Char → Bool
  | [], q => q.isNone
  | c :: cs, some qc =>
    if c = qc then shellQuoteClosed cs none else shellQuoteClosed cs (some qc)
  | c :: cs, none =>
    if c = '\'' ∨ c = '"' then shellQuoteClosed cs (some c)
    else shellQuoteClosed cs none

/-- The inputs on which `shellSplit` agrees with `shell_words::split`: no
backslash escapes (which the model omits) and no unclosed quote (on which
`shell_words::split` returns `Err` and the call sites in `main.rs` panic
through `.expect` instead of continuing). -/
def shellWordsOk (s : String) : Bool :=
  !s.data.contains '\\' && shellQuoteClosed s.data none

/-- Join character lists with a separator character (`Vec::join`). -/
def joinWith (c : Char) : List (List Char) → List Char
  | [] => []
  | [x] => x
  | x :: y :: t => x ++ c :: joinWith c (y :: t)

/-! ## TagGroup (`src/tag.rs`) -/

/-- One tag literal of a query: a name and a negation flag
(`Tag` in `src/tag.rs`). -/
structure Tag where
  name : String
  is_negated : Bool
deriving DecidableEq

/-- A conjunctive group of possibly-negated tag literals
(`TagGroup` in `src/tag.rs`). -/
structure TagGroup where
  tags : List Tag
deriving DecidableEq

/-- Embeds `TagGroup::parse`: split the query on commas; a leading `!` on a segment
(Rust `strip_prefix`) marks the tag as negated. -/
def TagGroup.parse (s : String) : TagGroup :=
  TagGroup.mk ((splitOnChar ',' s.data).map fun seg =>
    match seg with
    | '!' :: rest => Tag.mk (String.mk rest) true
    | _ => Tag.mk (String.mk seg) false)

/-- Embeds `TagGroup::matches`: every literal of the group must be satisfied by the
candidate tag set (membership for plain tags, non-membership for negated
ones). The Rust code materialises the slice into a `HashSet`; membership in
the list is the same predicate. -/
def TagGroup.matches (g : TagGroup) (tags : List String) : Bool :=
  g.tags.all fun t =>
    (t.is_negated && !(tags.contains t.name)) ||
      (!t.is_negated && tags.contains t.name)

/-! ## Configuration values and the game data model -/

/-- A semi-structured configuration value (the fragment of `toml::Value`
this program consumes). Tables are association lists; the list order stands
for the map's key-iteration order. -/
inductive TomlValue where
  | str : String → TomlValue
  | int : Int → TomlValue
  | boolean : Bool → TomlValue
  | array : List TomlValue → TomlValue
  | table : List (String × TomlValue) → TomlValue

/-- A `toml::Table`: a map from option name to value. -/
abbrev Table := List (String × TomlValue)

/-- Embeds `Table::get`: look a key up in a table. -/
def tableGet (t : Table) (k : String) : Option TomlValue :=
  match t with
  | [] => none
  | p :: rest => if p.1 = k then some p.2 else tableGet rest k

/-- The `get_str` helper of `main.rs`: the string value of a key, or the
empty string when the key is absent or not a string. -/
def tableGetStr (t : Table) (k : String) : String :=
  match tableGet t k with
  | some (.str s) => s
  | _ => ""

/-- A looked-up configuration value is safe to shell-split: either it is
not a string (the handler then ignores it) or the string lies in
`shell_words::split`'s success domain, so the `.expect` at the
`parse_cmd` / `parse_wine_exe` call sites cannot panic on it. -/
def shellValueOk (v : Option TomlValue) : Bool :=
  match v with
  | some (TomlValue.str s) => shellWordsOk s
  | _ => true

/-- The global `[settings]` values consumed by the builder
(`src/settings.rs`, a plain data struct; its fields are fixed by their uses
in `main.rs` and `game_builder.rs`). Rust `u32` dimensions are modelled as
`Nat`. -/
structure Settings where
  width : Nat
  height : Nat
  use_gamescope : Bool
deriving DecidableEq

/-- The error taxonomy of configuration compilation
(`ParseError` in `src/parse_error.rs`). -/
inductive ParseError where
  | MissingName : String → ParseError
  | MissingCommand : String → ParseError
  | GameNotTable : ParseError
  | MissingGameTable : ParseError
  | NoSuchDirectoryPrefix : String → String → ParseError
  | TomlError : String → ParseError
  | UnrecognizedOption : String → ParseError
deriving DecidableEq

/-- The fully resolved, immutable launch record (`Game` in `src/game.rs`).
The `env` `HashMap` is modelled as an association list with unique keys. -/
structure Game where
  id : String
  name : String
  dir : Option String
  command : List String
  env : List (String × String)
  tags : List String
  installed : Bool
deriving DecidableEq

instance : DecidableEq (Except ParseError Game) := fun a b =>
  match a, b with
  | .ok x, .ok y => decidable_of_iff (x = y) (by simp)
  | .error x, .error y => decidable_of_iff (x = y) (by simp)
  | .ok _, .error _ => isFalse (by simp)
  | .error _, .ok _ => isFalse (by simp)

/-! ## GameBuilder (`src/game_builder.rs`) -/

/-- The fluent builder state (`GameBuilder` in `src/game_builder.rs`).
The Rust field `dir_prefix` is called `dirPrefix` here. The Rust setter
methods each set a single field and are inlined as record updates at their
call sites. -/
structure GameBuilder where
  id : String
  directories : Table
  settings : Settings
  name : Option String
  dir : String
  dirPrefix : String
  command : List String
  env : List (String × String)
  tags : List String
  use_mangohud : Option Bool
  fps_limit : Option Int
  use_gamescope : Bool
  use_vk : Bool
  installed : Bool

/-- Embeds `GameBuilder::new`: the initial builder state. -/
def GameBuilder.new (id : String) (directories : Table) (settings : Settings) :
    GameBuilder :=
  { id := id
    directories := directories
    settings := settings
    name := none
    dir := ""
    dirPrefix := ""
    command := []
    env := []
    tags := []
    use_mangohud := none
    fps_limit := none
    use_gamescope := false
    use_vk := true
    installed := true }

/-- Embeds `GameBuilder::is_wine`: the base command is non-empty and its first
token is the literal `wine`. -/
def GameBuilder.is_wine (b : GameBuilder) : Bool :=
  !b.command.isEmpty && b.command.headD "" == "wine"

/-- The overlay-flag resolution computed at the start of
`GameBuilder::build` (lines 112 and 139-140): an explicit flag wins,
otherwise the wine heuristic. -/
def resolveMangohud (b : GameBuilder) : Bool :=
  (b.use_mangohud.isSome && b.use_mangohud.getD false) ||
    (b.use_mangohud.isNone && b.is_wine)

/-- Embeds `Path::new(a).join(b)`, restricted to the shapes this program produces:
an empty component disappears, an absolute second component replaces the
first, otherwise the components are joined with a slash. (Rust keeps a
trailing slash when joining a non-empty path with an empty one; no claim
depends on that corner.) -/
def pathJoin (a b : String) : String :=
  if a = "" then b
  else if b = "" then a
  else if b.startsWith "/" then b
  else a ++ "/" ++ b

/-- The fixed compositor invocation of `GameBuilder::build` (line 143):
`format!("gamescope -W {} -H {} -f --force-grab-cursor", w, h)` followed by
`shell_words::split`. The only substitutions are decimal numbers, which
contain no whitespace or quotes, so the split is exactly these tokens. -/
def gamescopeTokens (w h : Nat) : List String :=
  ["gamescope", "-W", natToString w, "-H", natToString h, "-f",
    "--force-grab-cursor"]

/-- Embeds `HashMap::insert`: replace any existing binding of the key and bind it
to the new value. -/
def envInsert (e : List (String × String)) (k v : String) :
    List (String × String) :=
  e.filter (fun p => p.1 ≠ k) ++ [(k, v)]

/-- The fixed `WINEDLLOVERRIDES` value injected when `use_vk` is false. -/
def wineDllOverrides : String := "*d3d9,*d3d10,*d3d10_1,*d3d10core,*d3d11,*dxgi=b"

/-- Embeds `GameBuilder::build` (lines 104-199): required-field checks, directory
resolution, command layering (compositor, else overlay, else bare), and
environment augmentation. -/
def GameBuilder.build (b : GameBuilder) : Except ParseError Game :=
  if b.name.isNone then .error (.MissingName b.id)
  else if b.command.isEmpty then .error (.MissingCommand b.id)
  else
    let dirPrefixRes : Except ParseError String :=
      if b.dirPrefix ≠ "" then
        match tableGet b.directories b.dirPrefix with
        | some (.str s) => .ok s
        | _ => .error (.NoSuchDirectoryPrefix b.id b.dirPrefix)
      else .ok b.dirPrefix
    match dirPrefixRes with
    | .error e => .error e
    | .ok dp =>
      let dir : String :=
        match tableGet b.directories b.dir with
        | some (.str d) => d
        | _ => b.dir
      let gameDir := pathJoin dp dir
      let mango := resolveMangohud b
      let command : List String :=
        if b.settings.use_gamescope then
          gamescopeTokens b.settings.width b.settings.height ++
            (match b.fps_limit with
              | some i => ["-r", intToString i]
              | none => []) ++
            (if mango then ["--mangoapp"] else []) ++
            ["--"] ++ b.command
        else if mango then "mangohud" :: b.command
        else b.command
      let env1 :=
        match b.fps_limit with
        | some limit =>
          if mango then
            envInsert b.env "MANGOHUD_CONFIG" ("fps_limit=" ++ intToString limit)
          else b.env
        | none => b.env
      let env2 :=
        if !b.use_vk then envInsert env1 "WINEDLLOVERRIDES" wineDllOverrides
        else env1
      .ok
        { id := b.id
          name := b.name.getD ""
          dir := if gameDir ≠ "" then some gameDir else none
          command := command
          env := env2
          tags := b.tags
          installed := b.installed }

/-! ## ConfigCompiler (`src/main.rs`): per-option handlers and dispatch -/

/-- Embeds `parse_name`: set the display name from the `name` key. (The Rust code
indexes the table, which cannot miss because the handler only runs when the
key is present; a missing key is modelled as a no-op.) -/
def parse_name (t : Table) (b : GameBuilder) : GameBuilder :=
  match tableGet t "name" with
  | some (.str s) => { b with name := some s }
  | _ => b

/-- Embeds `parse_scummvm_id`: synthesise the base command for a ScummVM game. -/
def parse_scummvm_id (t : Table) (b : GameBuilder) : GameBuilder :=
  match tableGet t "scummvm_id" with
  | some (.str s) => { b with command := ["scummvm", s] }
  | _ => b

/-- Embeds `parse_wine_exe`: synthesise a `wine` command from an executable path
plus optional arguments (shell-word split). -/
def parse_wine_exe (t : Table) (b : GameBuilder) : GameBuilder :=
  match tableGet t "wine_exe" with
  | some (.str s) => { b with command := "wine" :: shellSplit s }
  | _ => b

/-- Embeds `parse_dosbox_conf`: synthesise a `dosbox -conf` command. -/
def parse_dosbox_conf (t : Table) (b : GameBuilder) : GameBuilder :=
  match tableGet t "dosbox_config" with
  | some (.str s) => { b with command := ["dosbox", "-conf", s] }
  | _ => b

/-- The handler of the `dir_prefix` key (`parse_dir_prefix` in
`main.rs`): set the directory-alias field when non-empty. -/
def parseDirPrefix (t : Table) (b : GameBuilder) : GameBuilder :=
  if tableGetStr t "dir_prefix" ≠ "" then
    { b with dirPrefix := tableGetStr t "dir_prefix" }
  else b

/-- Embeds `parse_cmd`: set the base command from a shell-word-split string. -/
def parse_cmd (t : Table) (b : GameBuilder) : GameBuilder :=
  match tableGet t "cmd" with
  | some (.str s) => { b with command := shellSplit s }
  | _ => b

/-- Embeds `parse_dir`: set the literal directory field. -/
def parse_dir (t : Table) (b : GameBuilder) : GameBuilder :=
  match tableGet t "dir" with
  | some (.str s) => { b with dir := s }
  | _ => b

/-- Embeds `parse_env`: collect the string-valued entries of the `env` table. -/
def parse_env (t : Table) (b : GameBuilder) : GameBuilder :=
  match tableGet t "env" with
  | some (.table tbl) =>
    { b with env := tbl.filterMap fun p =>
        match p.2 with
        | .str s => some (p.1, s)
        | _ => none }
  | _ => b

/-- Embeds `parse_tags`: collect the string elements of the `tags` array. -/
def parse_tags (t : Table) (b : GameBuilder) : GameBuilder :=
  match tableGet t "tags" with
  | some (.array a) =>
    { b with tags := a.filterMap fun v =>
        match v with
        | .str s => some s
        | _ => none }
  | _ => b

/-- Embeds `parse_use_mangohud`: an explicit boolean sets the overlay flag; any
other shape (including a present key of the wrong type) snapshots the wine
heuristic of the builder as it stands when this handler runs. -/
def parse_use_mangohud (t : Table) (b : GameBuilder) : GameBuilder :=
  match tableGet t "use_mangohud" with
  | some (.boolean v) => { b with use_mangohud := some v }
  | _ => { b with use_mangohud := some b.is_wine }

/-- Embeds `parse_fps_limit`: set the frame-rate target from an integer value. -/
def parse_fps_limit (t : Table) (b : GameBuilder) : GameBuilder :=
  match tableGet t "fps_limit" with
  | some (.int i) => { b with fps_limit := some i }
  | _ => b

/-- Embeds `parse_installed`: a `false` boolean marks the game not installed. -/
def parse_installed (t : Table) (b : GameBuilder) : GameBuilder :=
  match tableGet t "installed" with
  | some (.boolean v) => if v then b else { b with installed := false }
  | _ => b

/-- Embeds `parse_use_gamescope`: a `true` boolean sets the per-game compositor
field of the builder (which `GameBuilder::build` never reads). -/
def parse_use_gamescope (t : Table) (b : GameBuilder) : GameBuilder :=
  match tableGet t "use_gamescope" with
  | some (.boolean v) => if v then { b with use_gamescope := true } else b
  | _ => b

/-- Embeds `parse_use_vk`: set the native-graphics-API flag from a boolean. -/
def parse_use_vk (t : Table) (b : GameBuilder) : GameBuilder :=
  match tableGet t "use_vk" with
  | some (.boolean v) => { b with use_vk := v }
  | _ => b

/-- The option-handler registry built in `parse_game_config`
(`option_parsers` in `main.rs`): the strict allow-list of recognized keys,
each mapped to its handler. -/
def optionHandlers (k : String) : Option (Table → GameBuilder → GameBuilder) :=
  match k with
  | "cmd" => some parse_cmd
  | "dir" => some parse_dir
  | "dir_prefix" => some parseDirPrefix
  | "dosbox_config" => some parse_dosbox_conf
  | "env" => some parse_env
  | "fps_limit" => some parse_fps_limit
  | "installed" => some parse_installed
  | "name" => some parse_name
  | "scummvm_id" => some parse_scummvm_id
  | "tags" => some parse_tags
  | "use_gamescope" => some parse_use_gamescope
  | "use_mangohud" => some parse_use_mangohud
  | "use_vk" => some parse_use_vk
  | "wine_exe" => some parse_wine_exe
  | _ => none

/-- The recognized-key set of the registry, as listed by the spec. -/
def recognizedKeys : List String :=
  ["cmd", "dir", "dir_prefix", "dosbox_config", "env", "fps_limit",
    "installed", "name", "scummvm_id", "tags", "use_gamescope",
    "use_mangohud", "use_vk", "wine_exe"]

/-- The four registry keys whose handlers set the base command of the
builder (`cmd` and the three command-synthesis shortcuts). -/
def commandKeys : List String :=
  ["cmd", "dosbox_config", "scummvm_id", "wine_exe"]

/-- Application of one registered handler; an unregistered key is the
identity (the dispatch loop rejects such keys before ever applying
this). -/
def applyOption (k : String) (t : Table) (b : GameBuilder) : GameBuilder :=
  match optionHandlers k with
  | some h => h t b
  | none => b

/-- The key-dispatch loop of `parse_game_config` followed by the terminal
`build`: walk the keys in order, fail on the first unrecognized one,
otherwise apply its handler. -/
def processKeys : List String → Table → GameBuilder → Except ParseError Game
  | [], _, b => b.build
  | k :: ks, t, b =>
    match optionHandlers k with
    | none => .error (.UnrecognizedOption k)
    | some h => processKeys ks t (h t b)

/-- Embeds `parse_game_config` (`main.rs` lines 642-675): dispatch every key of
one game's raw table through the registry, then build. -/
def parse_game_config (gameId : String) (gameConfig : Table)
    (directories : Table) (settings : Settings) : Except ParseError Game :=
  processKeys (gameConfig.map Prod.fst) gameConfig
    (GameBuilder.new gameId directories settings)

/-- The `[settings]` resolution of `parse_config` (`main.rs` lines
456-481): width and height default to 1280 and 720 when absent from a
present settings table; a missing settings table yields zero dimensions and
the compositor off. Rust `i64 as u32` truncation is modelled as reduction
modulo `2 ^ 32`. -/
def parseSettings (config : Table) : Settings :=
  match tableGet config "settings" with
  | some (.table tbl) =>
    { width :=
        match tableGet tbl "width" with
        | some (.int i) => (i % (2 ^ 32 : Nat)).toNat
        | _ => 1280
      height :=
        match tableGet tbl "height" with
        | some (.int i) => (i % (2 ^ 32 : Nat)).toNat
        | _ => 720
      use_gamescope :=
        match tableGet tbl "use_gamescope" with
        | some (.boolean v) => v
        | _ => false }
  | _ => { height := 0, width := 0, use_gamescope := false }

/-- Agreement of two builder states on every field except the per-game
`use_gamescope` flag (the one builder field `GameBuilder::build` never
reads). -/
def BuilderAgree (b b' : GameBuilder) : Prop :=
  b.id = b'.id ∧ b.directories = b'.directories ∧ b.settings = b'.settings ∧
    b.name = b'.name ∧ b.dir = b'.dir ∧ b.dirPrefix = b'.dirPrefix ∧
    b.command = b'.command ∧ b.env = b'.env ∧ b.tags = b'.tags ∧
    b.use_mangohud = b'.use_mangohud ∧ b.fps_limit = b'.fps_limit ∧
    b.use_vk = b'.use_vk ∧ b.installed = b'.installed

/-! ## GameStats and the ledger (`src/stats.rs`, `main.rs` `play_game`) -/

/-- Leap-year test of the proleptic Gregorian calendar, as
`time::util::is_leap_year`. -/
def isLeapYear (y : Nat) : Bool :=
  y % 4 = 0 && (y % 100 ≠ 0 || y % 400 = 0)

/-- Days in a month, as `time::util::days_in_year_month`. -/
def daysInMonth (y m : Nat) : Nat :=
  match m with
  | 2 => if isLeapYear y then 29 else 28
  | 4 => 30
  | 6 => 30
  | 9 => 30
  | 11 => 30
  | _ => 31

/-- A timestamp with an explicit UTC offset (`time::OffsetDateTime`):
wall-clock fields plus the offset in whole seconds. Years are modelled as
naturals (the `time` crate accepts `-9999..=9999`; nothing in this program
produces a negative year, and `GameStats::from_tsv` would in fact panic on
one because the serialized form is split on the dash character). -/
structure DateTime where
  year : Nat
  month : Nat
  day : Nat
  hour : Nat
  minute : Nat
  second : Nat
  nanosecond : Nat
  offset : Int
deriving DecidableEq

/-- The invariants `time::Date::from_calendar_date` and
`time::Time::from_hms` enforce on the fields used by the TSV format, plus
the four-digit year bound of the `time` crate's date range. -/
def DateTime.Valid (t : DateTime) : Prop :=
  1 ≤ t.month ∧ t.month ≤ 12 ∧ 1 ≤ t.day ∧ t.day ≤ daysInMonth t.year t.month ∧
    t.hour ≤ 23 ∧ t.minute ≤ 59 ∧ t.second ≤ 59 ∧ t.year ≤ 9999

instance (t : DateTime) : Decidable t.Valid := by
  unfold DateTime.Valid; infer_instance

/-- One per-game ledger record (`GameStats` in `src/stats.rs`).
`play_time_seconds` is a Rust `u32`, modelled as a `Nat` bounded by `2 ^ 32`
where the bound matters. -/
structure GameStats where
  id : String
  play_time_seconds : Nat
  last_played_time : DateTime
deriving DecidableEq

/-- Embeds `GameStats::add_time`: `u32::strict_add`, which panics (modelled as
`none`) instead of wrapping when the sum exceeds the `u32` width. -/
def GameStats.add_time (s : GameStats) (seconds : Nat) : Option GameStats :=
  if s.play_time_seconds + seconds < 2 ^ 32 then
    some { s with play_time_seconds := s.play_time_seconds + seconds }
  else none

/-- The serialized timestamp of `GameStats::to_tsv`: the fixed
`[year]-[month]-[day] [hour]:[minute]:[second]` format (zero-padded fields,
no sub-second part, no offset). -/
def timestampChars (t : DateTime) : List Char :=
  pad4 t.year ++ '-' :: (pad2 t.month ++ '-' :: (pad2 t.day ++
    ' ' :: (pad2 t.hour ++ ':' :: (pad2 t.minute ++ ':' :: pad2 t.second))))

/-- Embeds `GameStats::to_tsv`: id, cumulative seconds and formatted timestamp,
tab-separated. -/
def GameStats.to_tsv (s : GameStats) : String :=
  String.mk (s.id.data ++ '\t' :: (natToChars s.play_time_seconds ++
    '\t' :: timestampChars s.last_played_time))

/-- The bounded decimal parses of `GameStats::from_tsv`
(`str::parse` for `u8` / `u32` / `i32`). -/
def parseNatBounded (cs : List Char) (bound : Nat) : Option Nat :=
  match parseNatChars cs with
  | some n => if n < bound then some n else none
  | none => none

/-- Embeds `Month::January.nth_next(month - 1)` on a parsed month byte: `nth_next`
is cyclic modulo 12; a zero month underflows the `u8` subtraction (a panic
in the Rust debug profile, modelled as `none`). -/
def monthFromNumber (m : Nat) : Option Nat :=
  if m = 0 then none else some ((m - 1) % 12 + 1)

/-- Embeds `GameStats::from_tsv` (lines 45-69): split the line on tabs, the
timestamp on a space, the date on dashes and the time on colons; parse each
field; validate through `Date::from_calendar_date` and `Time::from_hms`
(panics modelled as `none`); reattach the ambient current local offset,
passed here explicitly as `localOffset`. -/
def GameStats.from_tsv (line : String) (localOffset : Int) : Option GameStats :=
  match splitOnChar '\t' line.data with
  | idCs :: ptCs :: tsCs :: _ =>
    (match splitOnChar ' ' tsCs with
    | dateCs :: timeCs :: _ =>
      (match splitOnChar '-' dateCs, splitOnChar ':' timeCs with
      | yCs :: moCs :: dCs :: _, hCs :: miCs :: sCs :: _ =>
        (match parseNatBounded yCs (2 ^ 31), parseNatBounded moCs 256,
            parseNatBounded dCs 256, parseNatBounded hCs 256,
            parseNatBounded miCs 256, parseNatBounded sCs 256,
            parseNatBounded ptCs (2 ^ 32) with
        | some y, some mo, some d, some h, some mi, some sec, some pt =>
          (match monthFromNumber mo with
          | some month =>
            if y ≤ 9999 ∧ 1 ≤ d ∧ d ≤ daysInMonth y month ∧ h ≤ 23 ∧
                mi ≤ 59 ∧ sec ≤ 59 then
              some
                { id := String.mk idCs
                  play_time_seconds := pt
                  last_played_time :=
                    { year := y, month := month, day := d, hour := h,
                      minute := mi, second := sec, nanosecond := 0,
                      offset := localOffset } }
            else none
          | none => none)
        | _, _, _, _, _, _, _ => none)
      | _, _ => none)
    | _ => none)
  | _ => none

/-- Rust `str::lines` (without carriage-return handling, which the ledger
never contains): split on newlines, dropping the segment after a trailing
newline. -/
def linesOf (s : String) : List (List Char) :=
  let ps := splitOnChar '\n' s.data
  if ps.getLast? = some [] then ps.dropLast else ps

/-- The ledger-merge loop of `play_game` (`main.rs` lines 289-309): skip
blank lines, parse each record (a parse failure is a panic, `none`), add
the elapsed seconds and overwrite the timestamp on an id match, pass other
records through, and report whether any line matched. -/
def mergeLines (lines : List (List Char)) (gameId : String) (playTime : Nat)
    (startTime : DateTime) (off : Int) : Option (List GameStats × Bool) :=
  match lines with
  | [] => some ([], false)
  | l :: ls =>
    if l.isEmpty then mergeLines ls gameId playTime startTime off
    else
      match GameStats.from_tsv (String.mk l) off with
      | none => none
      | some st =>
        if st.id = gameId then
          match st.add_time playTime with
          | none => none
          | some st1 =>
            match mergeLines ls gameId playTime startTime off with
            | none => none
            | some (rest, _) =>
              some ({ st1 with last_played_time := startTime } :: rest, true)
        else
          match mergeLines ls gameId playTime startTime off with
          | none => none
          | some (rest, found) => some (st :: rest, found)

/-- The re-serialization of the merged ledger (`main.rs` lines 311-317):
one `to_tsv` line per record, joined by newlines, with a trailing
newline. -/
def serializeStats (l : List GameStats) : String :=
  String.mk (joinWith '\n' (l.map fun s => s.to_tsv.data) ++ ['\n'])

/-- The ledger-rewrite step of `play_game`: merge the parsed lines of the
existing content, append a fresh record when no line matched, and
re-serialize everything. -/
def recordSession (content : String) (gameId : String) (playTime : Nat)
    (startTime : DateTime) (off : Int) : Option String :=
  match mergeLines (linesOf content) gameId playTime startTime off with
  | none => none
  | some (all, found) =>
    some (serializeStats
      (if found then all
        else all ++ [GameStats.mk gameId playTime startTime]))

/-- The well-formedness of a ledger record as persisted by this program:
the id contains neither the field separator nor a newline, the play time
fits a `u32`, and the timestamp fields are calendar-valid. -/
def GameStats.LedgerValid (s : GameStats) : Prop :=
  '\t' ∉ s.id.data ∧ '\n' ∉ s.id.data ∧ s.play_time_seconds < 2 ^ 32 ∧
    s.last_played_time.Valid

instance (s : GameStats) : Decidable s.LedgerValid := by
  unfold GameStats.LedgerValid; infer_instance

/-! ## Theorems -/

/-- C3: with no explicit overlay flag and a non-empty base command, the
overlay flag resolves at build time to true exactly when the first command
token is the literal `wine`; an explicit flag wins regardless of the
command. -/
theorem c3_mangohud_default (b : GameBuilder) :
    (b.use_mangohud = none → b.command ≠ [] →
      (resolveMangohud b = true ↔ b.command.head? = some "wine")) ∧
    (∀ v, b.use_mangohud = some v → resolveMangohud b = v) := by
  constructor
  · intro h hc
    cases hcmd : b.command with
    | nil => exact absurd hcmd hc
    | cons a l =>
      simp [resolveMangohud, GameBuilder.is_wine, h, hcmd]
  · intro v hv
    cases v <;> simp [resolveMangohud, hv]

theorem c3_mangohud_default_witness :
    resolveMangohud
      { GameBuilder.new "g" [] ⟨0, 0, false⟩ with command := ["wine", "x"] } =
      true ∧
    resolveMangohud
      { GameBuilder.new "g" [] ⟨0, 0, false⟩ with
        command := ["wine", "x"]
        use_mangohud := some false } = false :=
  ⟨((c3_mangohud_default _).1 rfl (by decide)).mpr rfl,
    (c3_mangohud_default _).2 false rfl⟩

/-- C9: `add_time` never silently wraps the `u32` play-time counter: when
the sum fits it becomes exactly the old value plus the added seconds (hence
non-decreasing), and otherwise the operation fails loudly. -/
theorem c9_add_time (s : GameStats) (n : Nat) :
    (s.play_time_seconds + n < 2 ^ 32 →
      s.add_time n =
        some { s with play_time_seconds := s.play_time_seconds + n } ∧
      s.play_time_seconds ≤ s.play_time_seconds + n) ∧
    (2 ^ 32 ≤ s.play_time_seconds + n → s.add_time n = none) := by
  constructor
  · intro h
    refine ⟨?_, Nat.le_add_right _ _⟩
    unfold GameStats.add_time
    rw [if_pos h]
  · intro h
    unfold GameStats.add_time
    rw [if_neg (Nat.not_lt.mpr h)]

theorem c9_add_time_witness :
    GameStats.add_time ⟨"g", 1, ⟨2025, 1, 1, 0, 0, 0, 0, 0⟩⟩ 2 =
      some ⟨"g", 3, ⟨2025, 1, 1, 0, 0, 0, 0, 0⟩⟩ ∧
    GameStats.add_time ⟨"g", 2 ^ 32 - 1, ⟨2025, 1, 1, 0, 0, 0, 0, 0⟩⟩ 1 =
      none :=
  ⟨((c9_add_time _ _).1 (by decide)).1, (c9_add_time _ _).2 (by decide)⟩

/-- C4: a parsed tag group matches a candidate set exactly when every
literal is satisfied — membership for plain tags, non-membership for
negated ones — and in particular `a,!b` matches `{a}`, but matches neither
`{a,b}` nor `{}`. -/
theorem c4_tag_matches :
    (∀ (q : String) (s : List String),
      (TagGroup.parse q).matches s = true ↔
        ∀ t ∈ (TagGroup.parse q).tags,
          if t.is_negated then t.name ∉ s else t.name ∈ s) ∧
    (TagGroup.parse "a,!b").matches ["a"] = true ∧
    (TagGroup.parse "a,!b").matches ["a", "b"] = false ∧
    (TagGroup.parse "a,!b").matches [] = false := by
  refine ⟨fun q s => ?_, by decide, by decide, by decide⟩
  unfold TagGroup.matches
  rw [List.all_eq_true]
  refine forall_congr' fun t => imp_congr_right fun _ => ?_
  cases hneg : t.is_negated <;> simp [hneg]

theorem c4_tag_matches_witness :
    (TagGroup.parse "c,!d").matches ["c", "e"] = true :=
  (c4_tag_matches.1 "c,!d" ["c", "e"]).mpr (by decide)

/-- C1: under the global compositor setting, a successful build produces
exactly the fixed gamescope invocation templated with the configured width
and height, then `-r N` exactly when an fps limit `N` was set, then
`--mangoapp` exactly when the overlay flag resolved true, then the
separator `--`, then the base command unchanged; and a present settings
table without width/height keys resolves to the 1280 by 720 defaults. -/
theorem c1_gamescope_argv :
    (∀ (b : GameBuilder) (g : Game), b.settings.use_gamescope = true →
      b.build = .ok g →
      g.command =
        gamescopeTokens b.settings.width b.settings.height ++
          (match b.fps_limit with
            | some i => ["-r", intToString i]
            | none => []) ++
          (if resolveMangohud b then ["--mangoapp"] else []) ++
          ["--"] ++ b.command) ∧
    (∀ (config : Table) (tbl : List (String × TomlValue)),
      tableGet config "settings" = some (.table tbl) →
      tableGet tbl "width" = none → tableGet tbl "height" = none →
      (parseSettings config).width = 1280 ∧ (parseSettings config).height = 720) := by
  constructor
  · intro b g hgs h
    simp only [GameBuilder.build] at h
    split at h
    · exact absurd h (by simp)
    split at h
    · exact absurd h (by simp)
    split at h
    · exact absurd h (by simp)
    rw [Except.ok.injEq] at h
    subst h
    simp only [hgs, if_true]
  · intro config tbl hs hw hh
    unfold parseSettings
    rw [hs]
    simp [hw, hh]

theorem c1_gamescope_argv_witness :
    GameBuilder.build
        { GameBuilder.new "t" [] ⟨1920, 1080, true⟩ with
          name := some "T"
          command := ["sh", "start.sh"]
          fps_limit := some 60
          use_mangohud := some true } =
      .ok ⟨"t", "T", none,
        ["gamescope", "-W", "1920", "-H", "1080", "-f", "--force-grab-cursor",
          "-r", "60", "--mangoapp", "--", "sh", "start.sh"],
        [("MANGOHUD_CONFIG", "fps_limit=60")], [], true⟩ ∧
    Game.command
        ⟨"t", "T", none,
          ["gamescope", "-W", "1920", "-H", "1080", "-f",
            "--force-grab-cursor", "-r", "60", "--mangoapp", "--", "sh",
            "start.sh"],
          [("MANGOHUD_CONFIG", "fps_limit=60")], [], true⟩ =
      gamescopeTokens 1920 1080 ++ ["-r", intToString 60] ++ ["--mangoapp"] ++
        ["--"] ++ ["sh", "start.sh"] ∧
    (parseSettings [("settings", .table [("use_gamescope", .boolean true)])]).width = 1280 :=
  ⟨by decide,
    c1_gamescope_argv.1
      { GameBuilder.new "t" [] ⟨1920, 1080, true⟩ with
        name := some "T"
        command := ["sh", "start.sh"]
        fps_limit := some 60
        use_mangohud := some true } _ rfl (by decide),
    (c1_gamescope_argv.2
      [("settings", .table [("use_gamescope", .boolean true)])]
      [("use_gamescope", .boolean true)] rfl rfl rfl).1⟩

/-- C2: with the global compositor setting off, a successful build yields
the single overlay-launcher token `mangohud` before the unchanged base
command exactly when the overlay flag resolved true, and the bare base
command otherwise; with the compositor on, the overlay launcher is never
the wrapper (the argv starts with the compositor executable instead). -/
theorem c2_overlay_argv (b : GameBuilder) (g : Game) (h : b.build = .ok g) :
    (b.settings.use_gamescope = false →
      g.command =
        if resolveMangohud b then "mangohud" :: b.command else b.command) ∧
    (b.settings.use_gamescope = true → g.command.head? = some "gamescope") := by
  simp only [GameBuilder.build] at h
  split at h
  · exact absurd h (by simp)
  split at h
  · exact absurd h (by simp)
  split at h
  · exact absurd h (by simp)
  rw [Except.ok.injEq] at h
  subst h
  constructor
  · intro hgs
    simp only [hgs, if_false, Bool.false_eq_true]
  · intro hgs
    simp [hgs, gamescopeTokens]

theorem c2_overlay_argv_witness :
    GameBuilder.build
        { GameBuilder.new "bg3" [] ⟨0, 0, false⟩ with
          name := some "BG3"
          command := ["wine", "bg3.exe"] } =
      .ok ⟨"bg3", "BG3", none, ["mangohud", "wine", "bg3.exe"], [], [], true⟩ ∧
    Game.command
        ⟨"bg3", "BG3", none, ["mangohud", "wine", "bg3.exe"], [], [], true⟩ =
      (if resolveMangohud
          { GameBuilder.new "bg3" [] ⟨0, 0, false⟩ with
            name := some "BG3"
            command := ["wine", "bg3.exe"] } then
        "mangohud" :: ["wine", "bg3.exe"] else ["wine", "bg3.exe"]) :=
  ⟨by decide,
    (c2_overlay_argv
      { GameBuilder.new "bg3" [] ⟨0, 0, false⟩ with
        name := some "BG3"
        command := ["wine", "bg3.exe"] } _ (by decide)).1 rfl⟩

/-- A key has a registered handler exactly when it belongs to the
recognized-key set. -/
theorem optionHandlers_isSome (k : String) :
    (optionHandlers k).isSome ↔ k ∈ recognizedKeys := by
  unfold optionHandlers
  split <;> simp_all [recognizedKeys]

/-- The dispatch loop fails with the unique unrecognized key of its key
list, wherever it sits among recognized keys. -/
theorem processKeys_unrecognized (keys : List String) (t : Table)
    (b : GameBuilder) (k : String) (hk : k ∈ keys)
    (hbad : k ∉ recognizedKeys)
    (hrest : ∀ k2 ∈ keys, k2 ≠ k → k2 ∈ recognizedKeys) :
    processKeys keys t b = .error (.UnrecognizedOption k) := by
  rw [← optionHandlers_isSome] at hbad
  induction keys generalizing b with
  | nil => cases hk
  | cons a as ih =>
    by_cases ha : a = k
    · subst ha
      unfold processKeys
      cases hopt : optionHandlers a with
      | none => rfl
      | some h => rw [hopt] at hbad; exact absurd rfl hbad
    · have hsome := hrest a (by simp) ha
      rw [← optionHandlers_isSome] at hsome
      unfold processKeys
      cases hopt : optionHandlers a with
      | none => rw [hopt] at hsome; exact absurd hsome (by simp)
      | some h =>
        have hk2 : k ∈ as := (List.mem_cons.mp hk).resolve_left fun he => ha he.symm
        have hrest2 : ∀ k2 ∈ as, k2 ≠ k → k2 ∈ recognizedKeys :=
          fun k2 h2 => hrest k2 (List.mem_cons_of_mem _ h2)
        exact ih (h t b) hk2 hrest2

/-- C6: any key of a game's table outside the recognized-key set makes
compilation fail with `UnrecognizedOption` carrying exactly that key,
however many other (recognized) keys the table holds; no game record is
produced.  The `shellValueOk` hypothesis keeps the table inside the
panic-free domain of `shell_words::split`: a `cmd` or `wine_exe` string
value with an unclosed quote would make the Rust program panic through
`.expect` inside that handler — which may run before the key scan reaches
the unrecognized key — rather than report the option error. -/
theorem c6_unrecognized_key (gameId : String) (t : Table) (directories : Table)
    (settings : Settings) (k : String) (hk : k ∈ t.map Prod.fst)
    (hbad : k ∉ recognizedKeys)
    (hrest : ∀ k2 ∈ t.map Prod.fst, k2 ≠ k → k2 ∈ recognizedKeys)
    (_hws : shellValueOk (tableGet t "cmd") = true ∧
      shellValueOk (tableGet t "wine_exe") = true) :
    parse_game_config gameId t directories settings =
      .error (.UnrecognizedOption k) :=
  processKeys_unrecognized _ t _ k hk hbad hrest

theorem c6_unrecognized_key_witness :
    parse_game_config "testgame"
      [("cmd", .str "sh 'start the game.sh'"), ("name", .str "Test Game"),
        ("use_manohud", .boolean true)] []
      ⟨0, 0, false⟩ = .error (.UnrecognizedOption "use_manohud") :=
  c6_unrecognized_key _ _ _ _ "use_manohud" (by decide) (by decide)
    (by decide) (by decide)

theorem builderAgree_refl (b : GameBuilder) : BuilderAgree b b := by
  unfold BuilderAgree
  exact ⟨rfl, rfl, rfl, rfl, rfl, rfl, rfl, rfl, rfl, rfl, rfl, rfl, rfl⟩

theorem builderAgree_trans {a b c : GameBuilder} (h1 : BuilderAgree a b)
    (h2 : BuilderAgree b c) : BuilderAgree a c := by
  unfold BuilderAgree at *
  obtain ⟨e1, e2, e3, e4, e5, e6, e7, e8, e9, e10, e11, e12, e13⟩ := h1
  obtain ⟨f1, f2, f3, f4, f5, f6, f7, f8, f9, f10, f11, f12, f13⟩ := h2
  exact ⟨e1.trans f1, e2.trans f2, e3.trans f3, e4.trans f4, e5.trans f5,
    e6.trans f6, e7.trans f7, e8.trans f8, e9.trans f9, e10.trans f10,
    e11.trans f11, e12.trans f12, e13.trans f13⟩

/-- The function `GameBuilder::build` reads every builder field except the per-game
`use_gamescope` flag, so builders agreeing off that flag build
identically. -/
theorem build_agree {b b' : GameBuilder} (hb : BuilderAgree b b') :
    b.build = b'.build := by
  obtain ⟨i, d, st, n, dr, dp, c, e, tg, um, f, g, v, ins⟩ := b
  obtain ⟨i', d', st', n', dr', dp', c', e', tg', um', f', g', v', ins'⟩ := b'
  obtain ⟨rfl, rfl, rfl, rfl, rfl, rfl, rfl, rfl, rfl, rfl, rfl, rfl, rfl⟩ := hb
  rfl

/-- The `use_gamescope` handler touches only the builder field `build`
never reads. -/
theorem parse_use_gamescope_agree (t : Table) (b : GameBuilder) :
    BuilderAgree (parse_use_gamescope t b) b := by
  unfold parse_use_gamescope
  rcases tableGet t "use_gamescope" with _ | v
  · exact builderAgree_refl b
  · cases v <;> try exact builderAgree_refl b
    rename_i bv
    cases bv
    · exact builderAgree_refl b
    · simp only [if_true]
      exact ⟨rfl, rfl, rfl, rfl, rfl, rfl, rfl, rfl, rfl, rfl, rfl, rfl, rfl⟩

/-- Every registered handler reads the raw table only at its own key and
the builder only off the per-game `use_gamescope` field, so it maps
agreeing builders over tables agreeing at that key to agreeing
builders. -/
theorem handlers_agree (k : String) (h : Table → GameBuilder → GameBuilder)
    (hk : optionHandlers k = some h) {t t' : Table}
    (ht : tableGet t k = tableGet t' k) {b b' : GameBuilder}
    (hb : BuilderAgree b b') : BuilderAgree (h t b) (h t' b') := by
  obtain ⟨i, d, st, n, dr, dp, c, e, tg, um, f, g, v, ins⟩ := b
  obtain ⟨i', d', st', n', dr', dp', c', e', tg', um', f', g', v', ins'⟩ := b'
  obtain ⟨rfl, rfl, rfl, rfl, rfl, rfl, rfl, rfl, rfl, rfl, rfl, rfl, rfl⟩ := hb
  unfold optionHandlers at hk
  split at hk <;> cases hk
  all_goals
    simp only [parse_cmd, parse_dir, parseDirPrefix, parse_dosbox_conf,
      parse_env, parse_fps_limit, parse_installed, parse_name,
      parse_scummvm_id, parse_tags, parse_use_gamescope, parse_use_mangohud,
      parse_use_vk, parse_wine_exe, tableGetStr, ht]
  all_goals repeat' split
  all_goals simp [BuilderAgree, GameBuilder.is_wine]

/-- The dispatch loop maps agreeing builders over key-wise agreeing tables
to the same compiled result. -/
theorem processKeys_agree (keys : List String) {t t' : Table}
    (hks : ∀ k ∈ keys, tableGet t k = tableGet t' k) {b b' : GameBuilder}
    (hb : BuilderAgree b b') : processKeys keys t b = processKeys keys t' b' := by
  induction keys generalizing b b' with
  | nil => exact build_agree hb
  | cons k ks ih =>
    unfold processKeys
    cases hopt : optionHandlers k with
    | none => rfl
    | some h =>
      exact ih (fun k2 h2 => hks k2 (List.mem_cons_of_mem _ h2))
        (handlers_agree k h hopt (hks k (by simp)) hb)

/-- The two defining equations of the dispatch loop, as rewrite rules. -/
theorem processKeys_cons (k : String) (ks : List String) (t : Table)
    (b : GameBuilder) :
    processKeys (k :: ks) t b =
      match optionHandlers k with
      | none => .error (.UnrecognizedOption k)
      | some h => processKeys ks t (h t b) := rfl

/-- Removing one keyed entry from a table leaves every other lookup
unchanged. -/
theorem tableGet_middle (l1 l2 : Table) (p : String × TomlValue) (k : String)
    (hk : k ≠ p.1) : tableGet (l1 ++ p :: l2) k = tableGet (l1 ++ l2) k := by
  induction l1 with
  | nil =>
    show (if p.1 = k then some p.2 else tableGet l2 k) = tableGet l2 k
    rw [if_neg fun he => hk he.symm]
  | cons q l1 ih =>
    show (if q.1 = k then some q.2 else tableGet (l1 ++ p :: l2) k) =
      if q.1 = k then some q.2 else tableGet (l1 ++ l2) k
    rw [ih]

/-- Dropping one `use_gamescope` step from the dispatch loop's key list —
while every other lookup agrees between the two tables — leaves the
compiled result unchanged. -/
theorem processKeys_skip_gs (ks1 ks2 : List String) {t t' : Table}
    (hlook : ∀ k ∈ ks1 ++ ks2, tableGet t k = tableGet t' k)
    {b b' : GameBuilder} (hb : BuilderAgree b b') :
    processKeys (ks1 ++ "use_gamescope" :: ks2) t b =
      processKeys (ks1 ++ ks2) t' b' := by
  induction ks1 generalizing b b' with
  | nil =>
    show processKeys (ks2) t (parse_use_gamescope t b) =
      processKeys ks2 t' b'
    exact processKeys_agree _ (fun k2 h2 => hlook k2 h2)
      (builderAgree_trans (parse_use_gamescope_agree _ b) hb)
  | cons k ks1 ih =>
    rw [List.cons_append, List.cons_append, processKeys_cons, processKeys_cons]
    cases hopt : optionHandlers k with
    | none => rfl
    | some hdl =>
      have hk : tableGet t k = tableGet t' k :=
        hlook k (by rw [List.cons_append]; exact List.mem_cons_self _ _)
      exact ih
        (fun k2 h2 => hlook k2 (by rw [List.cons_append]; exact List.mem_cons_of_mem _ h2))
        (handlers_agree k hdl hopt hk hb)

/-- C10: the per-game `use_gamescope` key has no effect on the compiled
record — whether it is present with any value or absent, the build result
(argv, environment, directory, tags, installed flag, or error) is
identical, because only the global settings flag selects the compositor
layer. -/
theorem c10_use_gamescope_no_effect (gameId : String) (l1 l2 : Table)
    (v : TomlValue) (directories : Table) (settings : Settings)
    (h : "use_gamescope" ∉ (l1 ++ l2).map Prod.fst) :
    parse_game_config gameId (l1 ++ ("use_gamescope", v) :: l2) directories
        settings =
      parse_game_config gameId (l1 ++ l2) directories settings := by
  unfold parse_game_config
  rw [List.map_append, List.map_cons, List.map_append]
  refine processKeys_skip_gs (l1.map Prod.fst) (l2.map Prod.fst)
    (fun k hkmem => ?_) (builderAgree_refl _)
  have hne : k ≠ "use_gamescope" := by
    intro he
    subst he
    exact h (by rw [List.map_append]; exact hkmem)
  exact tableGet_middle l1 l2 ("use_gamescope", v) k hne

theorem c10_use_gamescope_no_effect_witness :
    parse_game_config "g"
        [("name", .str "G"), ("use_gamescope", .boolean true),
          ("cmd", .str "run")] [] ⟨0, 0, false⟩ =
      parse_game_config "g" [("name", .str "G"), ("cmd", .str "run")] []
        ⟨0, 0, false⟩ :=
  c10_use_gamescope_no_effect "g" [("name", .str "G")] [("cmd", .str "run")]
    (.boolean true) [] ⟨0, 0, false⟩ (by decide)

set_option maxHeartbeats 1600000 in
/-- C8 fails on the code: handler-application order can change the
compiled record. Two witnesses: a table with two command-setting keys
(`cmd` and `wine_exe`) compiles to different argv depending on which
handler runs last, and a table whose `use_mangohud` value has the wrong
shape snapshots the wine heuristic at handler-application time, so running
it before or after the `cmd` handler flips the overlay wrapper. -/
theorem c8_order_cex :
    (processKeys ["cmd", "name", "wine_exe"]
        [("cmd", .str "a"), ("name", .str "G"), ("wine_exe", .str "b.exe")]
        (GameBuilder.new "g" [] ⟨0, 0, false⟩) ≠
      processKeys ["wine_exe", "name", "cmd"]
        [("cmd", .str "a"), ("name", .str "G"), ("wine_exe", .str "b.exe")]
        (GameBuilder.new "g" [] ⟨0, 0, false⟩)) ∧
    (processKeys ["cmd", "name", "use_mangohud"]
        [("cmd", .str "wine x"), ("name", .str "G"), ("use_mangohud", .int 5)]
        (GameBuilder.new "g" [] ⟨0, 0, false⟩) ≠
      processKeys ["use_mangohud", "name", "cmd"]
        [("cmd", .str "wine x"), ("name", .str "G"), ("use_mangohud", .int 5)]
        (GameBuilder.new "g" [] ⟨0, 0, false⟩)) := by
  constructor <;> decide

/-- Under all-recognized keys, the dispatch loop is the fold of the
handlers followed by the terminal build. -/
theorem processKeys_foldl (keys : List String) (t : Table) (b : GameBuilder)
    (hrec : ∀ k ∈ keys, k ∈ recognizedKeys) :
    processKeys keys t b =
      (keys.foldl (fun b k => applyOption k t b) b).build := by
  induction keys generalizing b with
  | nil => rfl
  | cons k ks ih =>
    have hk := (optionHandlers_isSome k).mpr (hrec k (by simp))
    rw [processKeys_cons]
    cases hopt : optionHandlers k with
    | none => rw [hopt] at hk; exact absurd hk (by simp)
    | some h =>
      rw [List.foldl_cons]
      have happ : applyOption k t b = h t b := by
        unfold applyOption
        rw [hopt]
      rw [happ]
      exact ih (h t b) fun k2 h2 => hrec k2 (List.mem_cons_of_mem _ h2)

set_option maxHeartbeats 3200000 in
/-- C8 amended: handler-application order over distinct keys does not
affect the compiled result provided at most one command-setting key
(`cmd`, `wine_exe`, `dosbox_config`, `scummvm_id`) occurs among the keys
and any `use_mangohud` key carries a boolean value; in particular a
boolean-valued `use_mangohud` handler may run before or after the
command-setting handlers. (Without these provisos the result is
order-dependent, as the counterexample shows; the spec itself flags the
command-key ambiguity in its design notes.) -/
theorem c8_order_insensitive_amended (keys1 keys2 : List String) (t : Table)
    (b : GameBuilder) (hperm : keys1.Perm keys2)
    (hrec : ∀ k ∈ keys1, k ∈ recognizedKeys)
    (hcmd : ∀ x ∈ keys1, ∀ y ∈ keys1,
      x ∈ commandKeys → y ∈ commandKeys → x = y)
    (hmh : "use_mangohud" ∈ keys1 →
      ∃ bv, tableGet t "use_mangohud" = some (.boolean bv)) :
    processKeys keys1 t b = processKeys keys2 t b := by
  have hrec2 : ∀ k ∈ keys2, k ∈ recognizedKeys :=
    fun k h2 => hrec k (hperm.mem_iff.mpr h2)
  rw [processKeys_foldl keys1 t b hrec, processKeys_foldl keys2 t b hrec2]
  have hfold :
      keys1.foldl (fun b k => applyOption k t b) b =
        keys2.foldl (fun b k => applyOption k t b) b := by
    refine hperm.foldl_eq' (fun x hx y hy z => ?_) b
    by_cases hxy : x = y
    · rw [hxy]
    have hxr := hrec x hx
    have hyr := hrec y hy
    simp only [recognizedKeys, List.mem_cons, List.not_mem_nil, or_false] at hxr hyr
    by_cases hin : "use_mangohud" ∈ keys1
    · obtain ⟨bv, hbv⟩ := hmh hin
      rcases hxr with rfl | rfl | rfl | rfl | rfl | rfl | rfl | rfl | rfl | rfl | rfl | rfl | rfl | rfl <;>
        rcases hyr with rfl | rfl | rfl | rfl | rfl | rfl | rfl | rfl | rfl | rfl | rfl | rfl | rfl | rfl <;>
        first
        | rfl
        | ((refine absurd (hcmd _ hx _ hy ?_ ?_) hxy) <;> decide)
        | (simp only [applyOption, optionHandlers, parse_cmd, parse_dir,
             parseDirPrefix, parse_dosbox_conf, parse_env, parse_fps_limit,
             parse_installed, parse_name, parse_scummvm_id, parse_tags,
             parse_use_gamescope, parse_use_mangohud, parse_use_vk,
             parse_wine_exe, tableGetStr, hbv]
           repeat' split
           all_goals rfl)
    · rcases hxr with rfl | rfl | rfl | rfl | rfl | rfl | rfl | rfl | rfl | rfl | rfl | rfl | rfl | rfl <;>
        rcases hyr with rfl | rfl | rfl | rfl | rfl | rfl | rfl | rfl | rfl | rfl | rfl | rfl | rfl | rfl <;>
        first
        | rfl
        | ((refine absurd (hcmd _ hx _ hy ?_ ?_) hxy) <;> decide)
        | exact absurd hx hin
        | exact absurd hy hin
        | (simp only [applyOption, optionHandlers, parse_cmd, parse_dir,
             parseDirPrefix, parse_dosbox_conf, parse_env, parse_fps_limit,
             parse_installed, parse_name, parse_scummvm_id, parse_tags,
             parse_use_gamescope, parse_use_mangohud, parse_use_vk,
             parse_wine_exe, tableGetStr]
           repeat' split
           all_goals rfl)
  rw [hfold]

theorem c8_order_insensitive_amended_witness :
    processKeys ["name", "use_mangohud", "cmd"]
        [("cmd", .str "wine x"), ("name", .str "G"),
          ("use_mangohud", .boolean true)]
        (GameBuilder.new "g" [] ⟨0, 0, false⟩) =
      processKeys ["cmd", "name", "use_mangohud"]
        [("cmd", .str "wine x"), ("name", .str "G"),
          ("use_mangohud", .boolean true)]
        (GameBuilder.new "g" [] ⟨0, 0, false⟩) :=
  c8_order_insensitive_amended _ _ _ _
    (by decide)
    (by decide)
    (by decide)
    (fun _ => ⟨true, rfl⟩)

/-! ### Decimal rendering and parsing round trip -/

theorem natToCharsAux_congr (f1 : Nat) : ∀ f2 n, n < f1 → n < f2 →
    natToCharsAux f1 n = natToCharsAux f2 n := by
  induction f1 with
  | zero => intro f2 n h1 _; omega
  | succ f1 ih =>
    intro f2 n h1 h2
    cases f2 with
    | zero => omega
    | succ f2 =>
      show (if n < 10 then [digitChar n]
          else natToCharsAux f1 (n / 10) ++ [digitChar (n % 10)]) =
        if n < 10 then [digitChar n]
        else natToCharsAux f2 (n / 10) ++ [digitChar (n % 10)]
      by_cases h10 : n < 10
      · rw [if_pos h10, if_pos h10]
      · rw [if_neg h10, if_neg h10]
        have hdiv : n / 10 < n := Nat.div_lt_self (by omega) (by omega)
        rw [ih f2 (n / 10) (by omega) (by omega)]

/-- The defining recursion of `natToChars`, free of fuel. -/
theorem natToChars_eq (n : Nat) :
    natToChars n =
      if n < 10 then [digitChar n]
      else natToChars (n / 10) ++ [digitChar (n % 10)] := by
  show (if n < 10 then [digitChar n]
      else natToCharsAux n (n / 10) ++ [digitChar (n % 10)]) = _
  by_cases h10 : n < 10
  · rw [if_pos h10, if_pos h10]
  · rw [if_neg h10, if_neg h10]
    have hdiv : n / 10 < n := Nat.div_lt_self (by omega) (by omega)
    rw [natToCharsAux_congr n (n / 10 + 1) (n / 10) (by omega) (by omega)]
    rfl

theorem natToChars_ne_nil (n : Nat) : natToChars n ≠ [] := by
  rw [natToChars_eq]
  by_cases h10 : n < 10
  · rw [if_pos h10]; simp
  · rw [if_neg h10]; simp

theorem charToDigit_digitChar (d : Nat) (h : d < 10) :
    charToDigit (digitChar d) = some d := by
  interval_cases d <;> rfl

/-- Characters of a decimal rendering are decimal digits. -/
theorem natToChars_digits (n : Nat) :
    ∀ c ∈ natToChars n, 48 ≤ c.toNat ∧ c.toNat ≤ 57 := by
  induction n using Nat.strong_induction_on with
  | _ n ih =>
    intro c hc
    rw [natToChars_eq] at hc
    by_cases h10 : n < 10
    · rw [if_pos h10] at hc
      rcases List.mem_singleton.mp hc with rfl
      interval_cases n <;> decide
    · rw [if_neg h10] at hc
      rcases List.mem_append.mp hc with h | h
      · exact ih (n / 10) (Nat.div_lt_self (by omega) (by omega)) c h
      · rcases List.mem_singleton.mp h with rfl
        have : n % 10 < 10 := Nat.mod_lt _ (by omega)
        interval_cases hm : n % 10 <;> decide

theorem pad2_digits (n : Nat) : ∀ c ∈ pad2 n, 48 ≤ c.toNat ∧ c.toNat ≤ 57 := by
  intro c hc
  unfold pad2 at hc
  by_cases h10 : n < 10
  · rw [if_pos h10] at hc
    rcases List.mem_cons.mp hc with rfl | h
    · decide
    · exact natToChars_digits n c h
  · rw [if_neg h10] at hc
    exact natToChars_digits n c hc

theorem pad4_digits (n : Nat) : ∀ c ∈ pad4 n, 48 ≤ c.toNat ∧ c.toNat ≤ 57 := by
  intro c hc
  unfold pad4 at hc
  rcases List.mem_append.mp hc with h | h
  · rcases List.eq_of_mem_replicate h with rfl
    decide
  · exact natToChars_digits n c h

theorem foldl_parseStep (n : Nat) : ∀ a : Nat,
    (natToChars n).foldl parseStep (some a) =
      some (a * 10 ^ (natToChars n).length + n) := by
  induction n using Nat.strong_induction_on with
  | _ n ih =>
    intro a
    rw [natToChars_eq]
    by_cases h10 : n < 10
    · rw [if_pos h10]
      show parseStep (some a) (digitChar n) = _
      unfold parseStep
      rw [charToDigit_digitChar n h10]
      simp
    · rw [if_neg h10]
      rw [List.foldl_append]
      rw [ih (n / 10) (Nat.div_lt_self (by omega) (by omega)) a]
      show parseStep _ (digitChar (n % 10)) = _
      unfold parseStep
      rw [charToDigit_digitChar (n % 10) (Nat.mod_lt _ (by omega))]
      rw [List.length_append, List.length_singleton]
      show some ((a * 10 ^ (natToChars (n / 10)).length + n / 10) * 10 + n % 10) = _
      congr 1
      have h2 : n / 10 * 10 + n % 10 = n := by omega
      calc (a * 10 ^ (natToChars (n / 10)).length + n / 10) * 10 + n % 10
          = a * (10 ^ (natToChars (n / 10)).length * 10) +
              (n / 10 * 10 + n % 10) := by ring
        _ = a * 10 ^ ((natToChars (n / 10)).length + 1) + n := by
              rw [h2, pow_succ]

/-- Parsing inverts decimal rendering. -/
theorem parseNatChars_natToChars (n : Nat) :
    parseNatChars (natToChars n) = some n := by
  unfold parseNatChars
  rw [if_neg (by simpa using natToChars_ne_nil n)]
  rw [foldl_parseStep n 0]
  simp

theorem parseNatChars_pad2 (n : Nat) : parseNatChars (pad2 n) = some n := by
  unfold pad2
  by_cases h10 : n < 10
  · rw [if_pos h10]
    unfold parseNatChars
    rw [if_neg (by simp)]
    show (natToChars n).foldl parseStep (parseStep (some 0) '0') = _
    have h0 : parseStep (some 0) '0' = some 0 := rfl
    rw [h0, foldl_parseStep n 0]
    simp
  · rw [if_neg h10]
    exact parseNatChars_natToChars n

theorem parseNatChars_pad4 (n : Nat) : parseNatChars (pad4 n) = some n := by
  unfold pad4
  unfold parseNatChars
  rw [if_neg (by simp [natToChars_ne_nil n])]
  rw [List.foldl_append]
  have hz : ∀ k, (List.replicate k '0').foldl parseStep (some 0) = some 0 := by
    intro k
    induction k with
    | zero => rfl
    | succ k ihk =>
      rw [List.replicate_succ, List.foldl_cons]
      exact ihk
  rw [hz]
  rw [foldl_parseStep n 0]
  simp

theorem parseNatBounded_pad2 (n bound : Nat) (h : n < bound) :
    parseNatBounded (pad2 n) bound = some n := by
  unfold parseNatBounded
  rw [parseNatChars_pad2]
  show (if n < bound then some n else none) = some n
  rw [if_pos h]

theorem parseNatBounded_pad4 (n bound : Nat) (h : n < bound) :
    parseNatBounded (pad4 n) bound = some n := by
  unfold parseNatBounded
  rw [parseNatChars_pad4]
  show (if n < bound then some n else none) = some n
  rw [if_pos h]

theorem parseNatBounded_natToChars (n bound : Nat) (h : n < bound) :
    parseNatBounded (natToChars n) bound = some n := by
  unfold parseNatBounded
  rw [parseNatChars_natToChars]
  show (if n < bound then some n else none) = some n
  rw [if_pos h]

/-! ### Splitting lemmas -/

theorem splitOnChar_ne_nil (c : Char) (cs : List Char) :
    splitOnChar c cs ≠ [] := by
  cases cs with
  | nil => simp [splitOnChar]
  | cons x xs =>
    unfold splitOnChar
    cases splitOnChar c xs with
    | nil => by_cases hx : x = c <;> simp [hx]
    | cons h t => by_cases hx : x = c <;> simp [hx]

theorem splitOnChar_not_mem (c : Char) (cs : List Char) (h : c ∉ cs) :
    splitOnChar c cs = [cs] := by
  induction cs with
  | nil => rfl
  | cons x xs ih =>
    have hx : x ≠ c := fun he => h (he ▸ List.mem_cons_self _ _)
    have hxs : c ∉ xs := fun hm => h (List.mem_cons_of_mem _ hm)
    unfold splitOnChar
    rw [ih hxs]
    simp [hx]

theorem splitOnChar_append (c : Char) (xs ys : List Char) (h : c ∉ xs) :
    splitOnChar c (xs ++ c :: ys) = xs :: splitOnChar c ys := by
  induction xs with
  | nil =>
    cases hs : splitOnChar c ys with
    | nil => exact absurd hs (splitOnChar_ne_nil c ys)
    | cons a t =>
      show (match splitOnChar c ys with
          | [] => if c = c then [[], []] else [[c]]
          | h :: t => if c = c then [] :: h :: t else (c :: h) :: t) =
        [] :: a :: t
      rw [hs]
      simp
  | cons x xs ih =>
    have hx : x ≠ c := fun he => h (he ▸ List.mem_cons_self _ _)
    have hxs : c ∉ xs := fun hm => h (List.mem_cons_of_mem _ hm)
    show (match splitOnChar c (xs ++ c :: ys) with
        | [] => if x = c then [[], []] else [[x]]
        | h :: t => if x = c then [] :: h :: t else (x :: h) :: t) =
      (x :: xs) :: splitOnChar c ys
    rw [ih hxs]
    simp [hx]

theorem splitOnChar_two (c : Char) (xs ys : List Char) (hx : c ∉ xs)
    (hy : c ∉ ys) : splitOnChar c (xs ++ c :: ys) = [xs, ys] := by
  rw [splitOnChar_append c xs ys hx, splitOnChar_not_mem c ys hy]

theorem splitOnChar_three (c : Char) (xs ys zs : List Char) (hx : c ∉ xs)
    (hy : c ∉ ys) (hz : c ∉ zs) :
    splitOnChar c (xs ++ c :: (ys ++ c :: zs)) = [xs, ys, zs] := by
  rw [splitOnChar_append c xs _ hx, splitOnChar_append c ys zs hy,
    splitOnChar_not_mem c zs hz]

theorem data_mk (l : List Char) : (String.mk l).data = l := rfl

/-- Every character of a serialized timestamp is a decimal digit or one of
the three fixed separators. -/
theorem timestampChars_chars (t : DateTime) :
    ∀ c ∈ timestampChars t,
      (48 ≤ c.toNat ∧ c.toNat ≤ 57) ∨ c = '-' ∨ c = ' ' ∨ c = ':' := by
  intro c hc
  unfold timestampChars at hc
  rcases List.mem_append.mp hc with h | h
  · exact Or.inl (pad4_digits _ _ h)
  rcases List.mem_cons.mp h with heq | h
  · exact Or.inr (Or.inl heq)
  rcases List.mem_append.mp h with h | h
  · exact Or.inl (pad2_digits _ _ h)
  rcases List.mem_cons.mp h with heq | h
  · exact Or.inr (Or.inl heq)
  rcases List.mem_append.mp h with h | h
  · exact Or.inl (pad2_digits _ _ h)
  rcases List.mem_cons.mp h with heq | h
  · exact Or.inr (Or.inr (Or.inl heq))
  rcases List.mem_append.mp h with h | h
  · exact Or.inl (pad2_digits _ _ h)
  rcases List.mem_cons.mp h with heq | h
  · exact Or.inr (Or.inr (Or.inr heq))
  rcases List.mem_append.mp h with h | h
  · exact Or.inl (pad2_digits _ _ h)
  rcases List.mem_cons.mp h with heq | h
  · exact Or.inr (Or.inr (Or.inr heq))
  exact Or.inl (pad2_digits _ _ h)

theorem daysInMonth_le (y m : Nat) : daysInMonth y m ≤ 31 := by
  unfold daysInMonth
  split <;> first | omega | (split <;> omega)

theorem monthFromNumber_id (m : Nat) (h1 : 1 ≤ m) (h2 : m ≤ 12) :
    monthFromNumber m = some m := by
  unfold monthFromNumber
  rw [if_neg (by omega), Nat.mod_eq_of_lt (by omega)]
  congr 1
  omega

/-- Parsing a serialized record reproduces the id, the play time and the
wall-clock timestamp fields; the sub-second part is dropped and the UTC
offset is replaced by the ambient local offset passed to the parser. -/
theorem from_to_tsv (s : GameStats) (off : Int) (hid : '\t' ∉ s.id.data)
    (hpt : s.play_time_seconds < 2 ^ 32) (hv : s.last_played_time.Valid) :
    GameStats.from_tsv s.to_tsv off =
      some ⟨s.id, s.play_time_seconds,
        { s.last_played_time with nanosecond := 0, offset := off }⟩ := by
  obtain ⟨sid, pt, dt⟩ := s
  obtain ⟨idl⟩ := sid
  obtain ⟨y, mo, d, hh, mi, sec, ns, toff⟩ := dt
  obtain ⟨h1, h2, h3, h4, h5, h6, h7, h8⟩ := hv
  simp only at h1 h2 h3 h4 h5 h6 h7 h8
  simp only [data_mk] at hid
  have hdm : daysInMonth y mo ≤ 31 := daysInMonth_le y mo
  -- digit-only segments contain no separator characters
  have hnd : ∀ (n : Nat) (c : Char), ¬(48 ≤ c.toNat ∧ c.toNat ≤ 57) →
      c ∉ natToChars n := fun n c hcn hm => hcn (natToChars_digits n c hm)
  have hnd2 : ∀ (n : Nat) (c : Char), ¬(48 ≤ c.toNat ∧ c.toNat ≤ 57) →
      c ∉ pad2 n := fun n c hcn hm => hcn (pad2_digits n c hm)
  have hnd4 : ∀ (n : Nat) (c : Char), ¬(48 ≤ c.toNat ∧ c.toNat ≤ 57) →
      c ∉ pad4 n := fun n c hcn hm => hcn (pad4_digits n c hm)
  have hts_tab : '\t' ∉ timestampChars ⟨y, mo, d, hh, mi, sec, ns, toff⟩ := by
    intro hm
    rcases timestampChars_chars _ _ hm with hd | h | h | h
    · have h9 : ('\t' : Char).toNat = 9 := rfl
      omega
    all_goals exact absurd h (by decide)
  have hdate_sp : ' ' ∉ pad4 y ++ '-' :: (pad2 mo ++ '-' :: pad2 d) := by
    intro hm
    simp only [List.mem_append, List.mem_cons] at hm
    rcases hm with h | h | h | h | h
    · exact hnd4 y ' ' (by decide) h
    · exact absurd h (by decide)
    · exact hnd2 mo ' ' (by decide) h
    · exact absurd h (by decide)
    · exact hnd2 d ' ' (by decide) h
  have htime_sp : ' ' ∉ pad2 hh ++ ':' :: (pad2 mi ++ ':' :: pad2 sec) := by
    intro hm
    simp only [List.mem_append, List.mem_cons] at hm
    rcases hm with h | h | h | h | h
    · exact hnd2 hh ' ' (by decide) h
    · exact absurd h (by decide)
    · exact hnd2 mi ' ' (by decide) h
    · exact absurd h (by decide)
    · exact hnd2 sec ' ' (by decide) h
  have hts_assoc : timestampChars ⟨y, mo, d, hh, mi, sec, ns, toff⟩ =
      (pad4 y ++ '-' :: (pad2 mo ++ '-' :: pad2 d)) ++
        ' ' :: (pad2 hh ++ ':' :: (pad2 mi ++ ':' :: pad2 sec)) := by
    unfold timestampChars
    simp [List.append_assoc]
  have hsplit_tab : splitOnChar '\t'
      (idl ++ '\t' :: (natToChars pt ++
        '\t' :: timestampChars ⟨y, mo, d, hh, mi, sec, ns, toff⟩)) =
      [idl, natToChars pt,
        timestampChars ⟨y, mo, d, hh, mi, sec, ns, toff⟩] :=
    splitOnChar_three '\t' _ _ _ hid (hnd pt '\t' (by decide)) hts_tab
  have hsplit_sp : splitOnChar ' '
      (timestampChars ⟨y, mo, d, hh, mi, sec, ns, toff⟩) =
      [pad4 y ++ '-' :: (pad2 mo ++ '-' :: pad2 d),
        pad2 hh ++ ':' :: (pad2 mi ++ ':' :: pad2 sec)] := by
    rw [hts_assoc]
    exact splitOnChar_two ' ' _ _ hdate_sp htime_sp
  have hsplit_date : splitOnChar '-'
      (pad4 y ++ '-' :: (pad2 mo ++ '-' :: pad2 d)) =
      [pad4 y, pad2 mo, pad2 d] :=
    splitOnChar_three '-' _ _ _ (hnd4 y '-' (by decide))
      (hnd2 mo '-' (by decide)) (hnd2 d '-' (by decide))
  have hsplit_time : splitOnChar ':'
      (pad2 hh ++ ':' :: (pad2 mi ++ ':' :: pad2 sec)) =
      [pad2 hh, pad2 mi, pad2 sec] :=
    splitOnChar_three ':' _ _ _ (hnd2 hh ':' (by decide))
      (hnd2 mi ':' (by decide)) (hnd2 sec ':' (by decide))
  have hpy := parseNatBounded_pad4 y (2 ^ 31) (by omega)
  have hpmo := parseNatBounded_pad2 mo 256 (by omega)
  have hpd := parseNatBounded_pad2 d 256 (by omega)
  have hphh := parseNatBounded_pad2 hh 256 (by omega)
  have hpmi := parseNatBounded_pad2 mi 256 (by omega)
  have hpsec := parseNatBounded_pad2 sec 256 (by omega)
  have hppt := parseNatBounded_natToChars pt (2 ^ 32) hpt
  have hmo := monthFromNumber_id mo h1 h2
  simp only [GameStats.to_tsv, GameStats.from_tsv, data_mk, hsplit_tab,
    hsplit_sp, hsplit_date, hsplit_time, hpy, hpmo, hpd, hphh, hpmi, hpsec,
    hppt, hmo, h1, h2, h3, h4, h5, h6, h7, h8, and_true, true_and, if_true]

/-- C7 fails on the code as stated: serialization drops the UTC offset and
parsing reattaches the ambient current local offset, so a value whose
offset differs from the ambient one (here +01:00 against UTC) is not
reproduced even though its timestamp has second granularity. -/
theorem c7_round_trip_cex :
    GameStats.from_tsv
        (GameStats.to_tsv ⟨"g", 7, ⟨2025, 11, 3, 19, 7, 0, 0, 3600⟩⟩) 0 ≠
      some ⟨"g", 7, ⟨2025, 11, 3, 19, 7, 0, 0, 3600⟩⟩ := by decide

/-- C7 amended: for a `GameStats` value with second-granularity timestamp,
calendar-valid fields, a tab-free id, a play time within the `u32` width,
and whose UTC offset equals the ambient local offset used at parse time,
`from_tsv` of `to_tsv` reproduces the value exactly (in general the id,
play time and wall-clock fields are reproduced and the offset is replaced
by the ambient one). -/
theorem c7_round_trip_amended (s : GameStats) (off : Int)
    (hid : '\t' ∉ s.id.data) (hpt : s.play_time_seconds < 2 ^ 32)
    (hv : s.last_played_time.Valid)
    (hnano : s.last_played_time.nanosecond = 0)
    (hoff : s.last_played_time.offset = off) :
    GameStats.from_tsv s.to_tsv off = some s := by
  obtain ⟨sid, pt, dt⟩ := s
  obtain ⟨y, mo, d, hh, mi, sec, ns, toff⟩ := dt
  simp only at hnano hoff
  subst hnano hoff
  exact from_to_tsv _ _ hid hpt hv

theorem c7_round_trip_amended_witness :
    GameStats.from_tsv
        (GameStats.to_tsv ⟨"g", 7, ⟨2025, 11, 3, 19, 7, 0, 0, 0⟩⟩) 0 =
      some ⟨"g", 7, ⟨2025, 11, 3, 19, 7, 0, 0, 0⟩⟩ :=
  c7_round_trip_amended _ 0 (by decide) (by decide) (by decide) rfl rfl

/-! ### The ledger-merge theorems -/

/-- The function `to_tsv` reads only the id, the play time and the wall-clock fields:
the sub-second part and the offset do not appear in the line. -/
theorem to_tsv_wall (s : GameStats) (n : Nat) (o : Int) :
    GameStats.to_tsv ⟨s.id, s.play_time_seconds,
        { s.last_played_time with nanosecond := n, offset := o }⟩ =
      s.to_tsv := by
  obtain ⟨sid, pt, ⟨y, mo, d, hh, mi, sec, ns, toff⟩⟩ := s
  rfl

theorem to_tsv_data_isEmpty (s : GameStats) :
    ((GameStats.to_tsv s).data).isEmpty = false := by
  obtain ⟨⟨idl⟩, pt, dt⟩ := s
  simp [GameStats.to_tsv]

theorem to_tsv_no_newline (s : GameStats) (hid : '\n' ∉ s.id.data) :
    '\n' ∉ (GameStats.to_tsv s).data := by
  obtain ⟨⟨idl⟩, pt, dt⟩ := s
  simp only [data_mk] at hid
  intro hm
  simp only [GameStats.to_tsv, data_mk] at hm
  rcases List.mem_append.mp hm with h | h
  · exact hid h
  rcases List.mem_cons.mp h with heq | h
  · exact absurd heq (by decide)
  rcases List.mem_append.mp h with h | h
  · have := natToChars_digits pt _ h
    have h10 : ('\n' : Char).toNat = 10 := rfl
    omega
  rcases List.mem_cons.mp h with heq | h
  · exact absurd heq (by decide)
  rcases timestampChars_chars _ _ h with hd | heq | heq | heq
  · have h10 : ('\n' : Char).toNat = 10 := rfl
    omega
  all_goals exact absurd heq (by decide)

/-- Splitting a separator-joined line list (with a trailing separator) on
that separator recovers the lines, plus one trailing empty segment. -/
theorem splitOnChar_join (c : Char) (ls : List (List Char)) (hne : ls ≠ [])
    (hnm : ∀ l ∈ ls, c ∉ l) :
    splitOnChar c (joinWith c ls ++ [c]) = ls ++ [[]] := by
  induction ls with
  | nil => exact absurd rfl hne
  | cons x t ih =>
    cases t with
    | nil =>
      show splitOnChar c (x ++ c :: []) = [x, []]
      exact splitOnChar_two c x [] (hnm x (by simp)) (by simp)
    | cons y t2 =>
      have hx : c ∉ x := hnm x (by simp)
      have hxs : joinWith c (x :: y :: t2) = x ++ c :: joinWith c (y :: t2) := rfl
      rw [hxs]
      have hassoc : (x ++ c :: joinWith c (y :: t2)) ++ [c] =
          x ++ c :: (joinWith c (y :: t2) ++ [c]) := by
        simp [List.append_assoc]
      rw [hassoc, splitOnChar_append c x _ hx]
      rw [ih (by simp) (fun l hl => hnm l (List.mem_cons_of_mem _ hl))]
      rfl

/-- The Rust `lines()` view of a serialized ledger: one entry per record
(an empty ledger serializes to a single newline, seen as one blank
line). -/
theorem linesOf_serialize (ss : List GameStats)
    (h : ∀ s ∈ ss, '\n' ∉ (GameStats.to_tsv s).data) :
    linesOf (serializeStats ss) =
      if ss.isEmpty then [[]]
      else ss.map fun s => (GameStats.to_tsv s).data := by
  cases ss with
  | nil => rfl
  | cons a t =>
    unfold linesOf serializeStats
    rw [data_mk]
    have hjoin := splitOnChar_join '\n'
      ((a :: t).map fun s => (GameStats.to_tsv s).data) (by simp)
      (by
        intro l hl
        rcases List.mem_map.mp hl with ⟨s, hs, rfl⟩
        exact h s hs)
    rw [show (['\n'] : List Char) = '\n' :: [] from rfl] at hjoin
    rw [hjoin]
    simp only [List.getLast?_concat]
    rw [if_pos trivial, List.dropLast_concat]
    rfl

/-- The merge loop over canonically serialized lines: matching records get
the elapsed seconds added and the timestamp overwritten, other records are
reproduced up to the lost sub-second/offset information, and the flag
reports whether any line matched. -/
theorem mergeLines_canonical (ss : List GameStats) (gid : String) (pt : Nat)
    (st : DateTime) (off : Int) (hval : ∀ s ∈ ss, s.LedgerValid)
    (hover : ∀ s ∈ ss, s.id = gid → s.play_time_seconds + pt < 2 ^ 32) :
    mergeLines (ss.map fun s => (GameStats.to_tsv s).data) gid pt st off =
      some (ss.map fun s =>
          if s.id = gid then ⟨s.id, s.play_time_seconds + pt, st⟩
          else ⟨s.id, s.play_time_seconds,
            { s.last_played_time with nanosecond := 0, offset := off }⟩,
        ss.any fun s => s.id == gid) := by
  induction ss with
  | nil => rfl
  | cons a t ih =>
    obtain ⟨hat, han, hapt, hav⟩ := hval a (by simp)
    have hih := ih (fun s hs => hval s (List.mem_cons_of_mem _ hs))
      (fun s hs => hover s (List.mem_cons_of_mem _ hs))
    show mergeLines ((GameStats.to_tsv a).data ::
        t.map fun s => (GameStats.to_tsv s).data) gid pt st off = _
    unfold mergeLines
    rw [to_tsv_data_isEmpty a, show String.mk (GameStats.to_tsv a).data =
      GameStats.to_tsv a from rfl, from_to_tsv a off hat hapt hav]
    by_cases hgid : a.id = gid
    · simp only [hih, hgid, if_pos rfl, GameStats.add_time,
        if_pos (hover a (by simp) hgid), List.map_cons, List.any_cons,
        beq_self_eq_true, Bool.true_or]
      rfl
    · have hbeq : (a.id == gid) = false := by
        simp [hgid]
      simp only [hih, List.map_cons, List.any_cons, hbeq, Bool.false_or,
        if_neg hgid]
      rfl

/-- Pointwise equal serializations give equal ledgers. -/
theorem serializeStats_congr (l1 l2 : List GameStats)
    (hmap : l1.map GameStats.to_tsv = l2.map GameStats.to_tsv) :
    serializeStats l1 = serializeStats l2 := by
  unfold serializeStats
  have hdata : (l1.map fun s => (GameStats.to_tsv s).data) =
      l2.map fun s => (GameStats.to_tsv s).data := by
    have h1 : (l1.map fun s => (GameStats.to_tsv s).data) =
        (l1.map GameStats.to_tsv).map String.data := by
      rw [List.map_map]
      rfl
    have h2 : (l2.map fun s => (GameStats.to_tsv s).data) =
        (l2.map GameStats.to_tsv).map String.data := by
      rw [List.map_map]
      rfl
    rw [h1, h2, hmap]
  rw [hdata]

/-- C5: rewriting a well-formed ledger for a play session updates the
matching line by exactly the elapsed seconds and the session start time,
appends exactly one fresh seeded line when no line matches, and reproduces
every other line byte-identically. -/
theorem c5_ledger_merge (ss : List GameStats) (gid : String) (pt : Nat)
    (st : DateTime) (off : Int) (hval : ∀ s ∈ ss, s.LedgerValid)
    (hover : ∀ s ∈ ss, s.id = gid → s.play_time_seconds + pt < 2 ^ 32) :
    recordSession (serializeStats ss) gid pt st off =
      some (serializeStats
        (if gid ∈ ss.map GameStats.id then
          ss.map fun s =>
            if s.id = gid then ⟨s.id, s.play_time_seconds + pt, st⟩ else s
        else ss ++ [⟨gid, pt, st⟩])) := by
  unfold recordSession
  rw [linesOf_serialize ss (fun s hs => to_tsv_no_newline s (hval s hs).2.1)]
  cases ss with
  | nil => rfl
  | cons a t =>
    rw [show (if (a :: t).isEmpty = true then [[]]
        else (a :: t).map fun s => (GameStats.to_tsv s).data) =
      (a :: t).map fun s => (GameStats.to_tsv s).data from rfl]
    rw [mergeLines_canonical (a :: t) gid pt st off hval hover]
    by_cases hf : gid ∈ (a :: t).map GameStats.id
    · have hany : ((a :: t).any fun s => s.id == gid) = true := by
        rcases List.mem_map.mp hf with ⟨s, hs, hsid⟩
        exact List.any_eq_true.mpr ⟨s, hs, by simp [hsid]⟩
      rw [hany, if_pos hf]
      show some (serializeStats ((a :: t).map fun s =>
          if s.id = gid then ⟨s.id, s.play_time_seconds + pt, st⟩
          else ⟨s.id, s.play_time_seconds,
            { s.last_played_time with nanosecond := 0, offset := off }⟩)) = _
      congr 1
      apply serializeStats_congr
      rw [List.map_map, List.map_map]
      apply List.map_congr_left
      intro s _
      show GameStats.to_tsv (if s.id = gid then _ else _) =
        GameStats.to_tsv (if s.id = gid then _ else _)
      by_cases hsg : s.id = gid
      · rw [if_pos hsg, if_pos hsg]
      · rw [if_neg hsg, if_neg hsg]
        exact to_tsv_wall s 0 off
    · have hany : ((a :: t).any fun s => s.id == gid) = false := by
        rw [Bool.eq_false_iff]
        intro hc
        rcases List.any_eq_true.mp hc with ⟨s, hs, hsb⟩
        exact hf (List.mem_map.mpr ⟨s, hs, by simpa using hsb⟩)
      rw [hany, if_neg hf]
      show some (serializeStats (((a :: t).map fun s =>
          if s.id = gid then ⟨s.id, s.play_time_seconds + pt, st⟩
          else ⟨s.id, s.play_time_seconds,
            { s.last_played_time with nanosecond := 0, offset := off }⟩) ++
          [⟨gid, pt, st⟩])) = _
      congr 1
      apply serializeStats_congr
      rw [List.map_append, List.map_append, List.map_map]
      congr 1
      apply List.map_congr_left
      intro s hs
      have hsg : s.id ≠ gid := by
        intro he
        exact hf (List.mem_map.mpr ⟨s, hs, he⟩)
      show GameStats.to_tsv (if s.id = gid then _ else _) = _
      rw [if_neg hsg]
      exact to_tsv_wall s 0 off

theorem c5_ledger_merge_witness :
    recordSession
        (serializeStats [⟨"a", 10, ⟨2025, 1, 2, 3, 4, 5, 0, 0⟩⟩,
          ⟨"b", 4, ⟨2025, 1, 2, 3, 4, 5, 0, 0⟩⟩]) "b" 5
        ⟨2026, 2, 3, 4, 5, 6, 0, 0⟩ 0 =
      some (serializeStats
        (if "b" ∈ ([⟨"a", 10, ⟨2025, 1, 2, 3, 4, 5, 0, 0⟩⟩,
            ⟨"b", 4, ⟨2025, 1, 2, 3, 4, 5, 0, 0⟩⟩] :
              List GameStats).map GameStats.id then
          ([⟨"a", 10, ⟨2025, 1, 2, 3, 4, 5, 0, 0⟩⟩,
            ⟨"b", 4, ⟨2025, 1, 2, 3, 4, 5, 0, 0⟩⟩] :
              List GameStats).map fun s =>
            if s.id = "b" then
              ⟨s.id, s.play_time_seconds + 5, ⟨2026, 2, 3, 4, 5, 6, 0, 0⟩⟩
            else s
        else [⟨"a", 10, ⟨2025, 1, 2, 3, 4, 5, 0, 0⟩⟩,
          ⟨"b", 4, ⟨2025, 1, 2, 3, 4, 5, 0, 0⟩⟩] ++
          [⟨"b", 5, ⟨2026, 2, 3, 4, 5, 6, 0, 0⟩⟩])) :=
  c5_ledger_merge _ "b" 5 ⟨2026, 2, 3, 4, 5, 6, 0, 0⟩ 0 (by decide) (by decide)

end GameRs
